import Mathlib

/-!
Verification development for the palette-quantization engine of
`improved-pngquant` (`src/lib/libimagequant.c`).  The C code's `float` and
`double` values are embedded as exact rationals (`ℚ`); machine integers as
`Nat`/`Int` with explicit wrap-around where the C code relies on it.
Functions living in translation units that are not part of the repository
snapshot (`pam.h`/`pam.c`, `nearest.c`, `viter.c`, `mediancut.c`) are taken
as parameters ("oracles") when their values do not decide a claim, and are
modelled from the specification text when they do (such definitions carry a
doc comment starting with "Modelled from the spec:").
-/

/-- Linear-space pixel (`f_pixel` from pam.h): four float channels. -/
structure FPixel where
  r : ℚ
  g : ℚ
  b : ℚ
  a : ℚ
deriving DecidableEq, Repr

/-- Byte pixel (`rgb_pixel` from pam.h): four 8-bit channels. -/
structure RgbPixel where
  r : ℕ
  g : ℕ
  b : ℕ
  a : ℕ
deriving DecidableEq, Repr

instance : Add FPixel := ⟨fun x y => ⟨x.r + y.r, x.g + y.g, x.b + y.b, x.a + y.a⟩⟩

instance : Zero FPixel := ⟨⟨0, 0, 0, 0⟩⟩

/-- Channel-wise scaling of a pixel by a scalar. -/
def FPixel.scale (q : ℚ) (x : FPixel) : FPixel := ⟨x.r * q, x.g * q, x.b * q, x.a * q⟩

/-- MAX_DIFF sentinel (1e20 in pam.h, which is outside the snapshot):
"worst possible difference", used as an effectively infinite error. -/
def MAX_DIFF : ℚ := 10 ^ 20

/-- Palette entry (`colormap_item`): linear color and popularity. -/
structure CmapItem where
  acolor : FPixel
  popularity : ℚ
deriving DecidableEq, Repr

/-- A colormap's palette is its ordered list of entries. -/
abbrev Colormap := List CmapItem

/-- Histogram entry (`hist_item`): linear color plus the two weights. -/
structure HistItem where
  acolor : FPixel
  perceptual_weight : ℚ
  adjusted_weight : ℚ
deriving DecidableEq, Repr

/-- A histogram is its ordered list of entries. -/
abbrev Histogram := List HistItem

/-- Error codes of the library API (`liq_error`). -/
inductive LiqError where
  | LIQ_OK
  | LIQ_VALUE_OUT_OF_RANGE
  | LIQ_BUFFER_TOO_SMALL
  | LIQ_OUT_OF_MEMORY
deriving DecidableEq, Repr

/-- Attribute object (`struct liq_attr`), allocator and logging fields
omitted.  `feedback_loop_trials` is stored unsigned but consumed as a
signed `int` local in `find_best_palette`, hence `ℤ` here. -/
structure LiqAttr where
  target_mse : ℚ
  max_mse : ℚ
  voronoi_iteration_limit : ℚ
  min_opaque_val : ℚ
  last_index_transparent : Bool
  use_contrast_maps : Bool
  use_dither_map : Bool
  max_colors : ℕ
  voronoi_iterations : ℕ
  feedback_loop_trials : ℤ

/-- Quantization result (`struct liq_result`). -/
structure LiqResult where
  palette : Colormap
  gamma : ℚ
  palette_error : ℚ
  min_opaque_val : ℚ
  dither_level : ℚ
  use_dither_map : Bool

/-- The order on palette entries induced by `compare_popularity`
(`v1 > v2 ? 1 : -1`): entry `x` sorts no later than `y` exactly when
`x.popularity ≤ y.popularity`, i.e. qsort orders by ascending popularity. -/
def popularityLE (x y : CmapItem) : Prop := x.popularity ≤ y.popularity

instance : DecidableRel popularityLE := fun x y =>
  inferInstanceAs (Decidable (x.popularity ≤ y.popularity))

instance : IsTotal CmapItem popularityLE := ⟨fun x y => le_total x.popularity y.popularity⟩

instance : IsTrans CmapItem popularityLE := ⟨fun _ _ _ h h2 => le_trans h h2⟩

/-- qsort with `compare_popularity`, modelled as a comparison sort by
ascending popularity (any standards-conforming qsort yields a permutation
that is sorted for this order). -/
def sortByPopularity (l : List CmapItem) : List CmapItem := List.insertionSort popularityLE l

/-- Swap of two positions of a list (the palette entry swaps in
`sort_palette` are expressed with a temporary in C). -/
def swapList {α : Type} (l : List α) (i j : ℕ) : List α :=
  match l.get? i, l.get? j with
  | some a, some b => (l.set i b).set j a
  | _, _ => l

/-- The transparent-to-front partition loop of `sort_palette`: scan index
`i`, count `numT` (C's `num_transparent`); an entry with `acolor.a <
255/256` found at `i ≠ numT` is swapped with position `numT` and the scan
index is held (`i--` then `i++`).  The argument `h` records the loop
invariant `numT ≤ i`, which the C code maintains implicitly. -/
def partitionLoop (pal : List CmapItem) (i numT : ℕ) (h : numT ≤ i) : List CmapItem × ℕ :=
  if hi : i < pal.length then
    if (pal.get ⟨i, hi⟩).acolor.a < 255 / 256 then
      if hne : i ≠ numT then
        partitionLoop (swapList pal numT i) i (numT + 1) (by omega)
      else
        partitionLoop pal (i + 1) (numT + 1) (by omega)
    else
      partitionLoop pal (i + 1) numT (by omega)
  else (pal, numT)
termination_by (pal.length - numT) + (pal.length - i)
decreasing_by
  · have hl : (swapList pal numT i).length = pal.length := by
      unfold swapList
      split <;> simp
    omega
  · omega
  · omega

/-- Partition stage of `sort_palette` when no transparent entry is sent to
the last slot: cluster the `acolor.a < 255/256` entries at the front, then
qsort the two groups separately. -/
def sortPaletteNoFlag (map : List CmapItem) : List CmapItem :=
  let st := partitionLoop map 0 0 (Nat.le_refl 0)
  sortByPopularity (st.1.take st.2) ++ sortByPopularity (st.1.drop st.2)

/-- C's `num_transparent` as computed by the partition loop. -/
def sortPaletteNumTrans (map : List CmapItem) : ℕ :=
  (partitionLoop map 0 0 (Nat.le_refl 0)).2

/-- `sort_palette`: with `last_index_transparent` set, the first entry with
`acolor.a < 1/256` is swapped into the final slot and the first
`colors - 1` entries are qsorted; otherwise (also when no such entry
exists) the transparent-to-front layout is produced. -/
def sort_palette (options : LiqAttr) (map : List CmapItem) : List CmapItem :=
  if options.last_index_transparent then
    match map.findIdx? (fun c => decide (c.acolor.a < 1 / 256)) with
    | some i =>
        let m := swapList map i (map.length - 1)
        sortByPopularity (m.take (map.length - 1)) ++ m.drop (map.length - 1)
    | none => sortPaletteNoFlag map
  else sortPaletteNoFlag map

/-- The palette-search stage's external collaborators: `mediancut`
(mediancut.c) builds a palette from a histogram, minimum opacity, color
budget, target MSE and per-box acceptance MSE; `viter` (viter.c,
`viter_do_iteration`) refines a palette against a histogram, returning the
refined palette, the histogram (whose adjusted weights the remapping
callback may rewrite when the Bool flag is true) and the total error. -/
structure QuantOracles where
  mediancut : Histogram → ℚ → ℕ → ℚ → ℚ → Colormap
  viter : Histogram → Colormap → ℚ → Bool → Colormap × Histogram × ℚ

/-- The weight halving applied by `find_best_palette` when a trial palette
is rejected: `adjusted_weight = (perceptual_weight + adjusted_weight)/2`. -/
def halveAdjustedWeights (hist : Histogram) : Histogram :=
  hist.map fun e => { e with adjusted_weight := (e.perceptual_weight + e.adjusted_weight) / 2 }

/-- Feedback loop of `find_best_palette`.  State: current histogram,
color budget, remaining trials (signed), best palette so far, its error
(`least_error`), and `target_mse_overshoot`.  `pein` is the caller's
incoming `*palette_error_p`, returned untouched on the early exit. -/
def fbLoop (O : QuantOracles) (options : LiqAttr) (pein : ℚ) (hist : Histogram)
    (max_colors : ℕ) (trials : ℤ) (acolormap : Option Colormap)
    (least_error overshoot : ℚ) : Colormap × ℚ × Histogram :=
  let newmap := O.mediancut hist options.min_opaque_val max_colors
    (options.target_mse * overshoot) (max (max (90 / 65536) options.target_mse) least_error * 1.2)
  if trials ≤ 0 then (newmap, pein, hist)
  else
    let first_run_of_target_mse := acolormap.isNone ∧ 0 < options.target_mse
    let step := O.viter hist newmap options.min_opaque_val (decide ¬first_run_of_target_mse)
    let newmap := step.1
    let hist := step.2.1
    let total_error := step.2.2
    if acolormap.isNone ∨ total_error < least_error ∨
        (total_error ≤ options.target_mse ∧ newmap.length < max_colors) then
      let overshoot := if total_error < options.target_mse ∧ 0 < total_error then
        min (overshoot * 1.25) (options.target_mse / total_error) else overshoot
      let max_colors := min (newmap.length + 1) max_colors
      let trials := trials - 1
      if _htr : 0 < trials then
        fbLoop O options pein hist max_colors trials (some newmap) total_error overshoot
      else (newmap, total_error, hist)
    else
      let hist := halveAdjustedWeights hist
      let trials := trials - 6 - (if least_error * 4 < total_error then 3 else 0)
      if _htr : 0 < trials then
        fbLoop O options pein hist max_colors trials acolormap least_error 1
      else (acolormap.getD [], least_error, hist)
termination_by trials.toNat
decreasing_by
  · omega
  · split <;> omega

/-- `find_best_palette`: repeated mediancut with reweighting.  The returned
`ℚ` is the final `*palette_error_p` (`-1` is passed in by
`pngquant_quantize` and survives when the trials are disabled). -/
def find_best_palette (O : QuantOracles) (options : LiqAttr) (hist : Histogram)
    (pein : ℚ) : Colormap × ℚ × Histogram :=
  fbLoop O options pein hist options.max_colors options.feedback_loop_trials none MAX_DIFF
    (if 0 < options.feedback_loop_trials then 1.05 else 1.0)

/-- The Voronoi polish loop of `pngquant_quantize`.  `i` and `iterations`
are C `unsigned int`s; `iterations++` wraps modulo `2^32`, which is what
bounds the loop when the error keeps hovering in the "probably hopeless"
band. -/
def viterLoop (O : QuantOracles) (options : LiqAttr) (hist : Histogram) (acolormap : Colormap)
    (i iterations : ℕ) (previous_palette_error palette_error : ℚ) : Colormap × ℚ :=
  if hlt : i < iterations then
    let step := O.viter hist acolormap options.min_opaque_val false
    let acolormap := step.1
    let hist := step.2.1
    let palette_error := step.2.2
    if |previous_palette_error - palette_error| < options.voronoi_iteration_limit then
      (acolormap, palette_error)
    else if options.max_mse * 1.5 < palette_error then
      if options.max_mse * 3.0 < palette_error then (acolormap, palette_error)
      else viterLoop O options hist acolormap (i + 1) ((iterations + 1) % 2 ^ 32)
        palette_error palette_error
    else viterLoop O options hist acolormap (i + 1) iterations palette_error palette_error
  else (acolormap, palette_error)
termination_by max iterations (2 ^ 32) - i
decreasing_by
  · have h2 : (iterations + 1) % 2 ^ 32 < 2 ^ 32 := Nat.mod_lt _ (by norm_num)
    rcases Nat.le_total iterations (2 ^ 32) with hle | hle <;>
      simp [Nat.max_eq_right, Nat.max_eq_left, hle] <;> omega
  · rcases Nat.le_total iterations (2 ^ 32) with hle | hle <;>
      simp [Nat.max_eq_right, Nat.max_eq_left, hle] <;> omega

/-- The non-shortcut branch of `pngquant_quantize`: `find_best_palette`
followed by the Voronoi polish, yielding the colormap and `palette_error`
just before the `max_mse` check. -/
def quantizeSearch (O : QuantOracles) (options : LiqAttr) (hist : Histogram) : Colormap × ℚ :=
  let fb := find_best_palette O options hist (-1)
  let acolormap := fb.1
  let palette_error := fb.2.1
  let hist := fb.2.2
  let iterations := if options.voronoi_iterations = 0 ∧ palette_error < 0 ∧
    options.max_mse < MAX_DIFF then 1 else options.voronoi_iterations
  if iterations ≠ 0 then
    viterLoop O options hist acolormap 0 iterations MAX_DIFF palette_error
  else (acolormap, palette_error)

/-- The few-colors shortcut condition of `pngquant_quantize`. -/
def quantizeShortcut (options : LiqAttr) (hist : Histogram) : Prop :=
  hist.length ≤ options.max_colors ∧ options.target_mse = 0

instance (options : LiqAttr) (hist : Histogram) : Decidable (quantizeShortcut options hist) :=
  inferInstanceAs (Decidable (_ ∧ _))

/-- The palette copied straight from the histogram by the shortcut branch
(one `colormap_item` per histogram entry; color and perceptual weight are
copied, the weight becoming the popularity). -/
def histToColormap (hist : Histogram) : Colormap :=
  hist.map fun e => ⟨e.acolor, e.perceptual_weight⟩

/-- The `(acolormap, palette_error)` pair `pngquant_quantize` holds right
before its quality-floor check (`palette_error` is `0` on the shortcut). -/
def quantizeCore (O : QuantOracles) (options : LiqAttr) (hist : Histogram) : Colormap × ℚ :=
  if quantizeShortcut options hist then (histToColormap hist, 0)
  else quantizeSearch O options hist

/-- The colormap constructed by quantization (before `sort_palette`). -/
def quantizeColormap (O : QuantOracles) (options : LiqAttr) (hist : Histogram) : Colormap :=
  (quantizeCore O options hist).1

/-- The palette error computed by quantization (after refinement). -/
def quantizePaletteError (O : QuantOracles) (options : LiqAttr) (hist : Histogram) : ℚ :=
  (quantizeCore O options hist).2

/-- Packaging of a successful quantization into a `liq_result` (designated
initializer of `pngquant_quantize`; unspecified fields are zero). -/
def mkLiqResult (options : LiqAttr) (palette : Colormap) (palette_error : ℚ) : LiqResult :=
  { palette := palette
    palette_error := palette_error
    use_dither_map := options.use_dither_map
    min_opaque_val := options.min_opaque_val
    dither_level := 0
    gamma := 0.45455 }

/-- `pngquant_quantize`: the few-colors shortcut builds the palette from
the histogram with error 0; otherwise the search runs and a `palette_error`
above `max_mse` aborts with no result (`NULL`).  A produced result carries
the sorted palette and the computed error. -/
def pngquant_quantize (O : QuantOracles) (hist : Histogram) (options : LiqAttr) :
    Option LiqResult :=
  if quantizeShortcut options hist then
    some (mkLiqResult options (sort_palette options (histToColormap hist)) 0)
  else
    let res := quantizeSearch O options hist
    if options.max_mse < res.2 then none
    else some (mkLiqResult options (sort_palette options res.1) res.2)

/-- `liq_set_dithering_level` exactly as written: note that the range check
reads `res->dither_level` (the value currently stored on the result), not
the `dither_level` argument being set. -/
def liq_set_dithering_level (res : LiqResult) (dither_level : ℚ) : LiqError × LiqResult :=
  if res.dither_level < 0 ∨ 1 < res.dither_level then (LiqError.LIQ_VALUE_OUT_OF_RANGE, res)
  else (LiqError.LIQ_OK, { res with dither_level := dither_level })

/-- `quality_to_mse`: quality 0 yields the MAX_DIFF sentinel, otherwise
`2.5/(210+quality)^1.2 * (100.1-quality)/100`.  The `pow` with fractional
exponent forces this single definition into `ℝ`. -/
noncomputable def quality_to_mse (quality : ℤ) : ℝ :=
  if quality = 0 then ((MAX_DIFF : ℚ) : ℝ)
  else 2.5 / ((210 : ℝ) + (quality : ℝ)) ^ (1.2 : ℝ) * ((100.1 : ℝ) - (quality : ℝ)) / 100

/-- The `(target_mse, max_mse)` view of the attribute fields written by
`liq_set_quality`. -/
structure AttrQuality where
  target_mse : ℝ
  max_mse : ℝ

/-- `liq_set_quality`: validates `0 ≤ minimum ≤ target ≤ 100`, then stores
`quality_to_mse target` as the target MSE and `quality_to_mse minimum` as
the fail-if-above MSE. -/
noncomputable def liq_set_quality (attr : AttrQuality) (target minimum : ℤ) :
    LiqError × AttrQuality :=
  if target < 0 ∨ 100 < target ∨ target < minimum ∨ minimum < 0 then
    (LiqError.LIQ_VALUE_OUT_OF_RANGE, attr)
  else (LiqError.LIQ_OK, ⟨quality_to_mse target, quality_to_mse minimum⟩)

/-- Modelled from the spec: pam.h (absent from the snapshot) passes the
alpha byte through `to_f` divided by 255, with no gamma transform. -/
def to_f_alpha (a : ℕ) : ℚ := (a : ℚ) / 255

/-- Modelled from the spec: pam.h (absent from the snapshot) converts a
linear alpha back to a byte by scaling to the byte range and rounding. -/
def to_rgb_alpha (al : ℚ) : ℕ := (round (al * 255)).toNat

/-- Per-pixel body of `modify_alpha`: pixels whose alpha byte reaches
`almost_opaque_val_int` (the C `unsigned int` truncation of
`min_opaque_val*169/256*255`) get their alpha linearly raised toward
opaque — `if (al > 1) al = 1` — and only the `.a` byte is written back. -/
def modify_alpha_pixel (min_opaque_val : ℚ) (px : RgbPixel) : RgbPixel :=
  let almost_opaque_val := min_opaque_val * (169 / 256)
  let almost_opaque_val_int := (⌊almost_opaque_val * 255⌋).toNat
  if almost_opaque_val_int ≤ px.a then
    let pxa := to_f_alpha px.a
    let al := almost_opaque_val +
      (pxa - almost_opaque_val) * (1 - almost_opaque_val) / (min_opaque_val - almost_opaque_val)
    let al := if 1 < al then 1 else al
    { px with a := to_rgb_alpha al }
  else px

/-- Image object (`struct liq_image`): pixel grid behind row pointers plus
the optional per-pixel maps.  The grid is a total function on (row, col);
the loops of the C code only touch coordinates inside width × height. -/
structure LiqImage where
  width : ℕ
  height : ℕ
  gamma : ℚ
  rows : ℕ → ℕ → RgbPixel
  noise : Option (ℕ → ℚ)
  edges : Option (ℕ → ℚ)
  dither_map : Option (ℕ → ℚ)
  modified : Bool

/-- `modify_alpha`: the double loop applies `modify_alpha_pixel` to every
pixel with `row < height` and `col < width`, then marks the image
modified. -/
def modify_alpha (input_image : LiqImage) (min_opaque_val : ℚ) : LiqImage :=
  { input_image with
    rows := fun row col =>
      if row < input_image.height ∧ col < input_image.width then
        modify_alpha_pixel min_opaque_val (input_image.rows row col)
      else input_image.rows row col
    modified := true }

instance : Inhabited FPixel := ⟨⟨0, 0, 0, 0⟩⟩

instance : Inhabited CmapItem := ⟨⟨⟨0, 0, 0, 0⟩, 0⟩⟩

/-- The inner while loop of `update_dither_map`:
`edges[row*width + lastcol++] *= factor` for `lastcol` running up to `col`
inclusive. -/
def scaleRun (edges : ℕ → ℚ) (base lastcol col : ℕ) (factor : ℚ) : ℕ → ℚ :=
  if lastcol ≤ col then
    scaleRun (Function.update edges (base + lastcol) (edges (base + lastcol) * factor))
      base (lastcol + 1) col factor
  else edges
termination_by col + 1 - lastcol

/-- Vertical-neighbor census of `update_dither_map`: for each column in
`[lastcol, col)`, one extra neighbor for a matching pixel in the row above
(when `row > 0`) and one for a matching pixel in the row below (when
`row < height - 1`). -/
def verticalNeighbors (row_pointers : ℕ → ℕ → ℕ) (height row lastpixel lastcol col : ℕ) : ℕ :=
  (List.range' lastcol (col - lastcol)).countP
      (fun i => decide (0 < row) && decide (row_pointers (row - 1) i = lastpixel)) +
    (List.range' lastcol (col - lastcol)).countP
      (fun i => decide (row < height - 1) && decide (row_pointers (row + 1) i = lastpixel))

/-- Per-row column scan of `update_dither_map`: runs of equal palette
indices (closed at `col = width - 1`) scale the covered cells by
`1 - 2.5/neighbor_count` with `neighbor_count = 2.5 + (col - lastcol) +`
vertical matches. -/
def ditherRowLoop (row_pointers : ℕ → ℕ → ℕ) (width height row : ℕ) (col : ℕ)
    (edges : ℕ → ℚ) (lastpixel lastcol : ℕ) : ℕ → ℚ :=
  if col < width then
    let px := row_pointers row col
    if px ≠ lastpixel ∨ col = width - 1 then
      let neighbor_count : ℚ := 2.5 + ((col - lastcol : ℕ) : ℚ) +
        (verticalNeighbors row_pointers height row lastpixel lastcol col : ℚ)
      let edges := scaleRun edges (row * width) lastcol col (1 - 2.5 / neighbor_count)
      ditherRowLoop row_pointers width height row (col + 1) edges px (col + 1)
    else ditherRowLoop row_pointers width height row (col + 1) edges lastpixel lastcol
  else edges
termination_by width - col

/-- All rows of `update_dither_map`'s scan: each row starts at `col = 1`
with `lastpixel = row_pointers[row][0]` and `lastcol = 0`. -/
def updateDitherMapRows (row_pointers : ℕ → ℕ → ℕ) (width height : ℕ)
    (edges : ℕ → ℚ) : ℕ → ℚ :=
  (List.range height).foldl
    (fun e row => ditherRowLoop row_pointers width height row 1 e (row_pointers row 0) 0) edges

/-- `update_dither_map`: damp the edges map over runs of identical palette
indices, then transfer it — the image ends with `dither_map` set to the
damped map and `edges` cleared. -/
def update_dither_map (row_pointers : ℕ → ℕ → ℕ) (input_image : LiqImage) : LiqImage :=
  let edges := input_image.edges.getD (fun _ => 0)
  { input_image with
    dither_map := some (updateDitherMapRows row_pointers input_image.width
      input_image.height edges)
    edges := none }

/-- The remapping stage's external collaborators: the pam.h conversions
`to_f`/`to_rgb` (first argument the gamma installed by `to_f_set_gamma`),
the pam.h metric `colordifference`, `nearest_init`+`nearest_search` from
nearest.c (returning index and squared distance), the `srand(12345)`-seeded
initial error row, and the viter.c accumulator finalization that
`remap_to_palette` drives through `viter_update_color`/`viter_finalize`. -/
structure RemapExt where
  toF : ℚ → RgbPixel → FPixel
  toRgb : ℚ → FPixel → RgbPixel
  colordifference : FPixel → FPixel → ℚ
  nearestFind : Colormap → FPixel → ℚ → ℕ × ℚ
  seedRow : ℕ → FPixel
  viterFinal : Colormap → List (ℕ × FPixel) → Colormap

/-- `min_4`. -/
def min_4 (a b c d : ℚ) : ℚ := min (min a b) (min c d)

/-- `get_dithered_pixel`: scale the accumulated error by the dither level,
bound it by the ratio that keeps every channel inside [0,1], damp the ratio
by 0.8 above `max_dither_error`, and skip dithering entirely below
`2/256/256`. -/
def get_dithered_pixel (dither_level max_dither_error : ℚ) (thiserr px : FPixel) : FPixel :=
  let sr := thiserr.r * dither_level
  let sg := thiserr.g * dither_level
  let sb := thiserr.b * dither_level
  let sa := thiserr.a * dither_level
  let ratioV := min_4
    (if sr < 0 then px.r / (-sr) else if 0 < sr then (1 - px.r) / sr else 1)
    (if sg < 0 then px.g / (-sg) else if 0 < sg then (1 - px.g) / sg else 1)
    (if sb < 0 then px.b / (-sb) else if 0 < sb then (1 - px.b) / sb else 1)
    (if sa < 0 then px.a / (-sa) else if 0 < sa then (1 - px.a) / sa else 1)
  let dither_error := sr * sr + sg * sg + sb * sb + sa * sa
  let clampAndMix := fun (rv : ℚ) =>
    let rv := if 1 < rv then 1 else if rv < 0 then 0 else rv
    (⟨px.r + sr * rv, px.g + sg * rv, px.b + sb * rv, px.a + sa * rv⟩ : FPixel)
  if max_dither_error < dither_error then clampAndMix (ratioV * 0.8)
  else if dither_error < 2 / 256 / 256 then px
  else clampAndMix ratioV

/-- `distance_from_closest_other_color`: smallest `colordifference` from
entry `i` to any other palette entry. -/
def distance_from_closest_other_color (E : RemapExt) (map : Colormap) (i : ℕ) : ℚ :=
  (List.range map.length).foldl
    (fun second_best j =>
      if i = j then second_best
      else
        let diff := E.colordifference (map.getD i default).acolor (map.getD j default).acolor
        if diff ≤ second_best then diff else second_best)
    MAX_DIFF

/-- Accumulation of a weighted error pixel into an error-row slot
(`thiserr[idx].ch += v.ch` for the four channels). -/
def addErr (e : ℕ → FPixel) (idx : ℕ) (v : FPixel) : ℕ → FPixel :=
  Function.update e idx (e idx + v)

/-- The Floyd–Steinberg propagation block of `remap_to_palette_floyd`,
verbatim in the buffer's index space: travelling left-to-right the scaled
residual goes `7/16` to `thiserr[col+2]` and `3/16`, `5/16`, `1/16` to
`nexterr[col]`, `nexterr[col+1]`, `nexterr[col+2]`; travelling
right-to-left it goes `7/16` to `thiserr[col]` and `1/16`, `5/16`, `3/16`
to `nexterr[col]`, `nexterr[col+1]`, `nexterr[col+2]`. -/
def fsPropagate (fs_direction : Bool) (col : ℕ) (err : FPixel) (thiserr nexterr : ℕ → FPixel) :
    (ℕ → FPixel) × (ℕ → FPixel) :=
  if fs_direction then
    (addErr thiserr (col + 2) (err.scale (7 / 16)),
      addErr (addErr (addErr nexterr col (err.scale (3 / 16)))
        (col + 1) (err.scale (5 / 16))) (col + 2) (err.scale (1 / 16)))
  else
    (addErr thiserr col (err.scale (7 / 16)),
      addErr (addErr (addErr nexterr col (err.scale (1 / 16)))
        (col + 1) (err.scale (5 / 16))) (col + 2) (err.scale (3 / 16)))

/-- The claim's description of the distribution, written in pixel-relative
terms: the pixel at column `p` owns buffer slot `p + 1`; the pixel one step
ahead in the travel direction gets `7/16` on the current row, and on the
next row the positions behind, at, and ahead of the pixel get `3/16`,
`5/16`, `1/16`. -/
def fsSpecPropagate (fs_direction : Bool) (p : ℕ) (err : FPixel) (thiserr nexterr : ℕ → FPixel) :
    (ℕ → FPixel) × (ℕ → FPixel) :=
  let slotAhead := if fs_direction then p + 2 else p
  let slotBehind := if fs_direction then p else p + 2
  (addErr thiserr slotAhead (err.scale (7 / 16)),
    addErr (addErr (addErr nexterr slotBehind (err.scale (3 / 16)))
      (p + 1) (err.scale (5 / 16))) slotAhead (err.scale (1 / 16)))

/-- The per-call constants of `remap_to_palette_floyd`. -/
structure FloydRun where
  E : RemapExt
  input_image : LiqImage
  map : Colormap
  min_opaque_val : ℚ
  use_dither_map : Bool
  output_image_is_remapped : Bool
  max_dither_error : ℚ

/-- The dither map actually consulted:
`use_dither_map ? (dither_map ? dither_map : edges) : NULL`. -/
def floydDitherMap (F : FloydRun) : Option (ℕ → ℚ) :=
  if F.use_dither_map then F.input_image.dither_map.orElse (fun _ => F.input_image.edges)
  else none

/-- The transparent slot: `nearest_search(n, (f_pixel){0,0,0,0}, ...)`. -/
def floydTransparentInd (F : FloydRun) : ℕ :=
  (F.E.nearestFind F.map ⟨0, 0, 0, 0⟩ F.min_opaque_val).1

/-- `difference_tolerance[i]`: quarter of the squared distance to the
closest other palette entry (computed when the output is already
remapped). -/
def floydTolerance (F : FloydRun) (i : ℕ) : ℚ :=
  distance_from_closest_other_color F.E F.map i / 4

/-- One pixel of the dithered remapper: dither the input pixel with the
accumulated error, choose its palette index (transparent slot / previous
index within tolerance / nearest search), write it out, damp the local
dither level above `max_dither_error`, scale the residual by
`(3+alpha)/4 · dither_level` on RGB and by `dither_level` on alpha, then
distribute it with `fsPropagate`. -/
def floydPixelStep (F : FloydRun) (fs_direction : Bool) (row col : ℕ) (out : ℕ → ℕ → ℕ)
    (thiserr nexterr : ℕ → FPixel) : (ℕ → ℕ → ℕ) × (ℕ → FPixel) × (ℕ → FPixel) :=
  let cols := F.input_image.width
  let dither_level := match floydDitherMap F with
    | some m => m (row * cols + col)
    | none => (15 : ℚ) / 16
  let spx := get_dithered_pixel dither_level F.max_dither_error (thiserr (col + 1))
    (F.E.toF F.input_image.gamma (F.input_image.rows row col))
  let ind :=
    if spx.a < 1 / 256 then floydTransparentInd F
    else
      let curr_ind := out row col
      if F.output_image_is_remapped ∧
          F.E.colordifference (F.map.getD curr_ind default).acolor spx <
            floydTolerance F curr_ind then
        curr_ind
      else (F.E.nearestFind F.map spx F.min_opaque_val).1
  let out := fun r c => if r = row ∧ c = col then ind else out r c
  let xp := (F.map.getD ind default).acolor
  let err : FPixel := ⟨spx.r - xp.r, spx.g - xp.g, spx.b - xp.b, spx.a - xp.a⟩
  let dither_level := if F.max_dither_error <
      err.r * err.r + err.g * err.g + err.b * err.b + err.a * err.a then
    dither_level * 0.75 else dither_level
  let colorimp := (3 + xp.a) / 4 * dither_level
  let err : FPixel := ⟨err.r * colorimp, err.g * colorimp, err.b * colorimp,
    err.a * dither_level⟩
  let prop := fsPropagate fs_direction col err thiserr nexterr
  (out, prop.1, prop.2)

/-- The serpentine do-while over one row's columns: left-to-right advances
until `col + 1 ≥ cols`; right-to-left decrements until `col = 0`. -/
def floydColLoop (F : FloydRun) (fs_direction : Bool) (row col : ℕ)
    (st : (ℕ → ℕ → ℕ) × (ℕ → FPixel) × (ℕ → FPixel)) :
    (ℕ → ℕ → ℕ) × (ℕ → FPixel) × (ℕ → FPixel) :=
  let st := floydPixelStep F fs_direction row col st.1 st.2.1 st.2.2
  if fs_direction then
    if col + 1 < F.input_image.width then floydColLoop F fs_direction row (col + 1) st else st
  else
    if col = 0 then st else floydColLoop F fs_direction row (col - 1) st
termination_by if fs_direction then F.input_image.width - col else col
decreasing_by
  · have hd : fs_direction = true := by assumption
    simp only [hd, if_true]
    omega
  · have hd : ¬fs_direction = true := by assumption
    simp only [Bool.not_eq_true] at hd
    simp only [hd, Bool.false_eq_true, if_false]
    omega

/-- Per-row state of the dithered remapper: the output grid, the incoming
error row, and the travel direction for the next row. -/
structure FloydState where
  out : ℕ → ℕ → ℕ
  thiserr : ℕ → FPixel
  fs_direction : Bool

/-- One row of `remap_to_palette_floyd`: `nexterr` is zeroed (`memset`),
the serpentine column loop runs from `0` or `cols - 1` according to the
direction, then the error rows are swapped and the direction flips. -/
def floydRowStep (F : FloydRun) (row : ℕ) (st : FloydState) : FloydState :=
  let cols := F.input_image.width
  let startCol := if st.fs_direction then 0 else cols - 1
  let res := floydColLoop F st.fs_direction row startCol
    (st.out, st.thiserr, fun _ => 0)
  { out := res.1, thiserr := res.2.2, fs_direction := !st.fs_direction }

/-- State of the dithered remapper after its first `k` rows; the error row
starts from the pseudo-random seed and the direction starts
left-to-right. -/
def floydStateAt (F : FloydRun) (out0 : ℕ → ℕ → ℕ) (k : ℕ) : FloydState :=
  (List.range k).foldl (fun st row => floydRowStep F row st) ⟨out0, F.E.seedRow, true⟩

/-- `remap_to_palette_floyd`: the output grid after all rows. -/
def remap_to_palette_floyd (F : FloydRun) (out0 : ℕ → ℕ → ℕ) : ℕ → ℕ → ℕ :=
  (floydStateAt F out0 F.input_image.height).out

/-- `remap_to_palette` (plain remapper): per pixel, transparent pixels get
the transparent slot, others the nearest entry (its squared distance
accumulating into the error); every pixel feeds the viter accumulators,
finalized into the palette afterwards.  Returns the output grid, the
refined palette and `remapping_error / max(1, remapped_pixels)`. -/
def remap_to_palette (E : RemapExt) (input_image : LiqImage) (out0 : ℕ → ℕ → ℕ)
    (map : Colormap) (min_opaque_val : ℚ) : (ℕ → ℕ → ℕ) × Colormap × ℚ :=
  let transparent_ind := (E.nearestFind map ⟨0, 0, 0, 0⟩ min_opaque_val).1
  let final := (List.range input_image.height).foldl
    (fun (st : (ℕ → ℕ → ℕ) × List (ℕ × FPixel) × ℚ × ℕ) row =>
      (List.range input_image.width).foldl
      (fun (st : (ℕ → ℕ → ℕ) × List (ℕ × FPixel) × ℚ × ℕ) col =>
        let px := E.toF input_image.gamma (input_image.rows row col)
        if px.a < 1 / 256 then
          ((fun r c => if r = row ∧ c = col then transparent_ind else st.1 r c),
            (transparent_ind, px) :: st.2.1, st.2.2.1, st.2.2.2)
        else
          let res := E.nearestFind map px min_opaque_val
          ((fun r c => if r = row ∧ c = col then res.1 else st.1 r c),
            (res.1, px) :: st.2.1, st.2.2.1 + res.2, st.2.2.2 + 1))
      st)
    (out0, ([] : List (ℕ × FPixel)), (0 : ℚ), (0 : ℕ))
  (final.1, E.viterFinal map final.2.1.reverse, final.2.2.1 / (max 1 final.2.2.2 : ℕ))

/-- Remapping result object (`struct liq_remapping_result`), the pixel
buffer omitted. -/
structure LiqRemappingResult where
  palette : Colormap
  int_palette : List RgbPixel
  gamma : ℚ
  palette_error : ℚ
  min_opaque_val : ℚ
  dither_level : ℚ
  use_dither_map : Bool

/-- `set_rounded_palette`: each palette color is pushed through `to_rgb`
under the output gamma into the integer palette, and the colormap entry is
replaced by the re-linearized rounded bytes. -/
def set_rounded_palette (E : RemapExt) (result : LiqRemappingResult) : LiqRemappingResult :=
  let pairs := result.palette.map fun item =>
    let px := E.toRgb result.gamma item.acolor
    ({ item with acolor := E.toF result.gamma px }, px)
  { result with palette := pairs.map Prod.fst, int_palette := pairs.map Prod.snd }

/-- Record of the `remap_to_palette_floyd` invocation made by
`liq_write_remapped_image_rows`. -/
structure FloydCall where
  output_image_is_remapped : Bool
  max_dither_error : ℚ
deriving DecidableEq

/-- Outcome of `liq_write_remapped_image_rows`. -/
structure WriteOutcome where
  output : ℕ → ℕ → ℕ
  result : LiqRemappingResult
  image : LiqImage
  floydCall : Option FloydCall

/-- `liq_write_remapped_image_rows`: dither level 0 runs the plain remapper
on the rounded palette; otherwise an optional plain first pass feeds
`update_dither_map`, the palette is rounded, and the dithered remapper runs
with `max_dither_error = MAX(remapping_error*2.4, 16/256)` where
`remapping_error` is the first-pass MSE when that pass ran and the stored
`palette_error` otherwise.  A negative stored `palette_error` is replaced
by the plain remapping error at the end. -/
def liq_write_remapped_image_rows (E : RemapExt) (result : LiqRemappingResult)
    (input_image : LiqImage) (row_pointers : ℕ → ℕ → ℕ) : WriteOutcome :=
  let remapping_error := result.palette_error
  if result.dither_level = 0 then
    let result := set_rounded_palette E result
    let plain := remap_to_palette E input_image row_pointers result.palette
      result.min_opaque_val
    let remapping_error := plain.2.2
    let result := { result with palette := plain.2.1 }
    { output := plain.1
      result := { result with palette_error :=
        if result.palette_error < 0 then remapping_error else result.palette_error }
      image := input_image
      floydCall := none }
  else
    let generate_dither_map := result.use_dither_map ∧ input_image.edges.isSome ∧
      input_image.dither_map.isNone
    let firstPass := remap_to_palette E input_image row_pointers result.palette
      result.min_opaque_val
    let row_pointers1 := if generate_dither_map then firstPass.1 else row_pointers
    let result1 := if generate_dither_map then { result with palette := firstPass.2.1 }
      else result
    let remapping_error := if generate_dither_map then firstPass.2.2 else remapping_error
    let input_image1 := if generate_dither_map then update_dither_map firstPass.1 input_image
      else input_image
    let result2 := set_rounded_palette E result1
    let F : FloydRun :=
      { E := E
        input_image := input_image1
        map := result2.palette
        min_opaque_val := result2.min_opaque_val
        use_dither_map := result2.use_dither_map
        output_image_is_remapped := generate_dither_map
        max_dither_error := max (remapping_error * 2.4) (16 / 256) }
    { output := remap_to_palette_floyd F row_pointers1
      result := { result2 with palette_error :=
        if result2.palette_error < 0 then remapping_error else result2.palette_error }
      image := input_image1
      floydCall := some ⟨generate_dither_map, max (remapping_error * 2.4) (16 / 256)⟩ }

/-- Fixture: attribute object with `last_index_transparent` unset. -/
def fxAttrNoFlag : LiqAttr :=
  { target_mse := 0, max_mse := 1, voronoi_iteration_limit := 0, min_opaque_val := 1,
    last_index_transparent := false, use_contrast_maps := false, use_dither_map := false,
    max_colors := 1, voronoi_iterations := 0, feedback_loop_trials := 0 }

/-- Fixture: attribute object with `last_index_transparent` set. -/
def fxAttrFlag : LiqAttr := { fxAttrNoFlag with last_index_transparent := true }

/-- Fixture: fully opaque palette entry of the given popularity. -/
def fxOpaque (p : ℚ) : CmapItem := ⟨⟨0, 0, 0, 1⟩, p⟩

/-- Fixture: fully transparent palette entry of the given popularity. -/
def fxTransparent (p : ℚ) : CmapItem := ⟨⟨0, 0, 0, 0⟩, p⟩

/-- Fixture: two opaque entries with ascending popularity. -/
def fxMapAsc : List CmapItem := [fxOpaque 1, fxOpaque 2]

/-- Fixture: a transparent entry followed by two opaque ones. -/
def fxMapLast : List CmapItem := [fxTransparent 5, fxOpaque 1, fxOpaque 2]

/-- Fixture: trivial palette-search collaborators. -/
def fxOracles : QuantOracles :=
  { mediancut := fun _ _ _ _ _ => [], viter := fun h m _ _ => (m, h, 0) }

/-- Fixture: one-entry histogram. -/
def fxHist : Histogram := [⟨⟨0, 0, 0, 1⟩, 1, 1⟩]

/-- Fixture: result object whose stored dithering level is 1/2. -/
def fxResult : LiqResult :=
  { palette := [], gamma := 0.45455, palette_error := 0, min_opaque_val := 1,
    dither_level := 1 / 2, use_dither_map := false }

/-- Fixture: attribute-quality view with both MSE fields zero. -/
def fxAttrQuality : AttrQuality := ⟨0, 0⟩

/-- Fixture: trivial remapping collaborators. -/
def fxExt : RemapExt :=
  { toF := fun _ _ => 0, toRgb := fun _ _ => ⟨0, 0, 0, 0⟩, colordifference := fun _ _ => 0,
    nearestFind := fun _ _ _ => (0, 0), seedRow := fun _ => 0, viterFinal := fun m _ => m }

/-- Fixture: 1×1 image with no maps. -/
def fxImage : LiqImage :=
  { width := 1, height := 1, gamma := 0.45455, rows := fun _ _ => ⟨0, 0, 0, 0⟩,
    noise := none, edges := none, dither_map := none, modified := false }

/-- Fixture: remapping result with dithering enabled and zero stored
error. -/
def fxRemapResult : LiqRemappingResult :=
  { palette := [], int_palette := [], gamma := 0.45455, palette_error := 0,
    min_opaque_val := 1, dither_level := 1, use_dither_map := false }

/-- Fixture: 1×1 image whose pixel has alpha byte 50. -/
def fxImage9 : LiqImage := { fxImage with rows := fun _ _ => ⟨10, 20, 30, 50⟩ }

/-- Fixture: 1×1 image whose pixel has alpha byte 10. -/
def fxImage9w : LiqImage := { fxImage with rows := fun _ _ => ⟨10, 20, 30, 10⟩ }

/-- Fixture: all-zero index plane. -/
def fxRowsZero : ℕ → ℕ → ℕ := fun _ _ => 0

/-- Fixture: 2×1 image carrying a constant edges map. -/
def fxImage10 : LiqImage := { fxImage with width := 2, edges := some fun _ => 1 }

theorem get_cons_set_perm {α : Type} : ∀ (xs : List α) (j : ℕ) (hj : j < xs.length) (a : α),
    List.Perm (xs.get ⟨j, hj⟩ :: xs.set j a) (a :: xs)
  | x :: xs, 0, _, a => List.Perm.swap a x xs
  | x :: xs, j + 1, hj, a => by
    have hj2 : j < xs.length := by simpa using hj
    show List.Perm (xs.get ⟨j, hj2⟩ :: x :: xs.set j a) (a :: x :: xs)
    exact (List.Perm.swap x (xs.get ⟨j, hj2⟩) (xs.set j a)).trans
      (((get_cons_set_perm xs j hj2 a).cons x).trans (List.Perm.swap a x xs))

theorem set_set_perm {α : Type} : ∀ (l : List α) (i j : ℕ) (hi : i < l.length)
    (hj : j < l.length),
    List.Perm ((l.set i (l.get ⟨j, hj⟩)).set j (l.get ⟨i, hi⟩)) l
  | x :: t, 0, 0, _, _ => by simp
  | x :: t, 0, j + 1, hi, hj => by
    have hj2 : j < t.length := by simpa using hj
    simpa using get_cons_set_perm t j hj2 x
  | x :: t, i + 1, 0, hi, hj => by
    have hi2 : i < t.length := by simpa using hi
    simpa using get_cons_set_perm t i hi2 x
  | x :: t, i + 1, j + 1, hi, hj => by
    have hi2 : i < t.length := by simpa using hi
    have hj2 : j < t.length := by simpa using hj
    simpa using (set_set_perm t i j hi2 hj2).cons x

theorem swapList_perm {α : Type} (l : List α) (i j : ℕ) : List.Perm (swapList l i j) l := by
  rcases Nat.lt_or_ge i l.length with hi | hi
  · rcases Nat.lt_or_ge j l.length with hj | hj
    · have h1 := List.get?_eq_get hi
      have h2 := List.get?_eq_get hj
      simp only [swapList, h1, h2]
      exact set_set_perm l i j hi hj
    · have h2 : l.get? j = none := List.get?_eq_none.mpr hj
      simp only [swapList, h2]
      cases l.get? i <;> exact List.Perm.refl l
  · have h1 : l.get? i = none := List.get?_eq_none.mpr hi
    simp only [swapList, h1]
    exact List.Perm.refl l

theorem swapList_length {α : Type} (l : List α) (i j : ℕ) :
    (swapList l i j).length = l.length := by
  unfold swapList
  split <;> simp

theorem swapList_get {α : Type} (l : List α) (i j k : ℕ) (hi : i < l.length)
    (hj : j < l.length) (hk : k < l.length) (hk2 : k < (swapList l i j).length) :
    (swapList l i j).get ⟨k, hk2⟩ =
      if k = j then l.get ⟨i, hi⟩ else if k = i then l.get ⟨j, hj⟩ else l.get ⟨k, hk⟩ := by
  have h1 := List.get?_eq_get hi
  have h2 := List.get?_eq_get hj
  simp only [swapList, h1, h2, List.get_eq_getElem, List.getElem_set]
  rcases eq_or_ne k j with rfl | hkj
  · simp
  · rcases eq_or_ne k i with rfl | hki
    · simp [Ne.symm hkj, hkj]
    · simp [Ne.symm hkj, Ne.symm hki, hkj, hki]

theorem sortByPopularity_perm (l : List CmapItem) : List.Perm (sortByPopularity l) l :=
  List.perm_insertionSort popularityLE l

theorem sortByPopularity_sorted (l : List CmapItem) :
    List.Sorted popularityLE (sortByPopularity l) :=
  List.sorted_insertionSort popularityLE l

theorem sortByPopularity_length (l : List CmapItem) :
    (sortByPopularity l).length = l.length :=
  List.length_insertionSort popularityLE l

theorem partitionLoop_perm : ∀ (pal : List CmapItem) (i numT : ℕ) (h : numT ≤ i),
    List.Perm (partitionLoop pal i numT h).1 pal := by
  intro pal i numT h
  induction pal, i, numT, h using partitionLoop.induct with
  | case1 pal i numT h hi htr hne ih =>
    rw [partitionLoop, dif_pos hi, if_pos htr, dif_pos hne]
    exact ih.trans (swapList_perm pal numT i)
  | case2 pal i numT h hi htr hne ih =>
    rw [partitionLoop, dif_pos hi, if_pos htr, dif_neg hne]
    exact ih
  | case3 pal i numT h hi htr ih =>
    rw [partitionLoop, dif_pos hi, if_neg htr]
    exact ih
  | case4 pal i numT h hi =>
    rw [partitionLoop, dif_neg hi]

theorem partitionLoop_invariant :
    ∀ (pal : List CmapItem) (i numT : ℕ) (h : numT ≤ i),
    numT ≤ pal.length →
    (∀ k (hk : k < pal.length), k < numT → (pal.get ⟨k, hk⟩).acolor.a < 255 / 256) →
    (∀ k (hk : k < pal.length), numT ≤ k → k < i →
      ¬((pal.get ⟨k, hk⟩).acolor.a < 255 / 256)) →
    (partitionLoop pal i numT h).2 ≤ (partitionLoop pal i numT h).1.length ∧
    (∀ k (hk : k < (partitionLoop pal i numT h).1.length),
      k < (partitionLoop pal i numT h).2 →
      ((partitionLoop pal i numT h).1.get ⟨k, hk⟩).acolor.a < 255 / 256) ∧
    (∀ k (hk : k < (partitionLoop pal i numT h).1.length),
      (partitionLoop pal i numT h).2 ≤ k →
      ¬(((partitionLoop pal i numT h).1.get ⟨k, hk⟩).acolor.a < 255 / 256)) := by
  intro pal i numT h
  induction pal, i, numT, h using partitionLoop.induct with
  | case1 pal i numT h hi htr hne ih =>
    intro _ pre1 pre2
    rw [partitionLoop, dif_pos hi, if_pos htr, dif_pos hne]
    have hnumT : numT < pal.length := by omega
    have hlen : (swapList pal numT i).length = pal.length := swapList_length pal numT i
    refine ih ?_ ?_ ?_
    · omega
    · intro k hk hklt
      rw [swapList_get pal numT i k hnumT hi (by omega) hk]
      by_cases hki : k = i
      · exfalso
        omega
      · rw [if_neg hki]
        by_cases hkn : k = numT
        · rw [if_pos hkn]
          exact htr
        · rw [if_neg hkn]
          exact pre1 k (by omega) (by omega)
    · intro k hk hk1 hk2
      rw [swapList_get pal numT i k hnumT hi (by omega) hk]
      rw [if_neg (by omega : k ≠ i), if_neg (by omega : k ≠ numT)]
      exact pre2 k (by omega) (by omega) (by omega)
  | case2 pal i numT h hi htr hne ih =>
    intro _ pre1 pre2
    rw [partitionLoop, dif_pos hi, if_pos htr, dif_neg hne]
    have hieq : i = numT := by omega
    refine ih ?_ ?_ ?_
    · omega
    · intro k hk hklt
      by_cases hkn : k = numT
      · have heq : (⟨k, hk⟩ : Fin pal.length) = ⟨i, hi⟩ := by
          apply Fin.ext
          simp [hkn, hieq]
        rw [heq]
        exact htr
      · exact pre1 k hk (by omega)
    · intro k hk hk1 hk2
      exfalso
      omega
  | case3 pal i numT h hi htr ih =>
    intro _ pre1 pre2
    rw [partitionLoop, dif_pos hi, if_neg htr]
    refine ih ?_ ?_ ?_
    · omega
    · exact pre1
    · intro k hk hk1 hk2
      by_cases hki : k = i
      · have heq : (⟨k, hk⟩ : Fin pal.length) = ⟨i, hi⟩ := by
          apply Fin.ext
          simp [hki]
        rw [heq]
        exact htr
      · exact pre2 k hk hk1 (by omega)
  | case4 pal i numT h hi =>
    intro pre0 pre1 pre2
    rw [partitionLoop, dif_neg hi]
    refine ⟨pre0, pre1, ?_⟩
    intro k hk hk1
    have hk2 : k < pal.length := by simpa using hk
    exact pre2 k hk2 hk1 (by omega)

theorem sortByPopularity_forall {l : List CmapItem} {p : CmapItem → Prop}
    (h : ∀ x ∈ l, p x) : ∀ x ∈ sortByPopularity l, p x :=
  fun x hx => h x ((sortByPopularity_perm l).mem_iff.mp hx)

theorem sortPaletteNoFlag_parts (map : List CmapItem) :
    sortPaletteNoFlag map =
      sortByPopularity ((partitionLoop map 0 0 (Nat.le_refl 0)).1.take
        (partitionLoop map 0 0 (Nat.le_refl 0)).2) ++
      sortByPopularity ((partitionLoop map 0 0 (Nat.le_refl 0)).1.drop
        (partitionLoop map 0 0 (Nat.le_refl 0)).2) := rfl

theorem take_length_append {α : Type} (A B : List α) (n : ℕ) (h : A.length = n) :
    (A ++ B).take n = A := by
  subst h
  exact List.take_left A B

theorem drop_length_append {α : Type} (A B : List α) (n : ℕ) (h : A.length = n) :
    (A ++ B).drop n = B := by
  subst h
  exact List.drop_left A B

/-- C3 (amended): with `last_index_transparent` unset, `sort_palette`
clusters the entries with alpha below 255/256 in the first `num_trans`
slots, the fully opaque entries after them, and each of the two groups is
sorted by ascending popularity. -/
theorem sort_palette_noflag_layout (options : LiqAttr) (map : List CmapItem)
    (hflag : options.last_index_transparent = false) :
    (sort_palette options map).length = map.length ∧
    sortPaletteNumTrans map ≤ map.length ∧
    (∀ k (hk : k < (sort_palette options map).length),
      (k < sortPaletteNumTrans map →
        ((sort_palette options map).get ⟨k, hk⟩).acolor.a < 255 / 256) ∧
      (sortPaletteNumTrans map ≤ k →
        255 / 256 ≤ ((sort_palette options map).get ⟨k, hk⟩).acolor.a)) ∧
    List.Sorted popularityLE ((sort_palette options map).take (sortPaletteNumTrans map)) ∧
    List.Sorted popularityLE ((sort_palette options map).drop (sortPaletteNumTrans map)) := by
  have hsp : sort_palette options map = sortPaletteNoFlag map := by
    rw [sort_palette, hflag]
    simp
  have inv := partitionLoop_invariant map 0 0 (Nat.le_refl 0) (Nat.zero_le _)
    (fun k hk h => absurd h (by omega)) (fun k hk h1 h2 => absurd h2 (by omega))
  have hperm : List.Perm (partitionLoop map 0 0 (Nat.le_refl 0)).1 map :=
    partitionLoop_perm map 0 0 (Nat.le_refl 0)
  have hPlen : (partitionLoop map 0 0 (Nat.le_refl 0)).1.length = map.length :=
    hperm.length_eq
  have hTle : (partitionLoop map 0 0 (Nat.le_refl 0)).2 ≤
      (partitionLoop map 0 0 (Nat.le_refl 0)).1.length := inv.1
  have hT : sortPaletteNumTrans map = (partitionLoop map 0 0 (Nat.le_refl 0)).2 := rfl
  have hA : (sortByPopularity ((partitionLoop map 0 0 (Nat.le_refl 0)).1.take
      (partitionLoop map 0 0 (Nat.le_refl 0)).2)).length =
      (partitionLoop map 0 0 (Nat.le_refl 0)).2 := by
    rw [sortByPopularity_length, List.length_take]
    omega
  have hB : (sortByPopularity ((partitionLoop map 0 0 (Nat.le_refl 0)).1.drop
      (partitionLoop map 0 0 (Nat.le_refl 0)).2)).length =
      (partitionLoop map 0 0 (Nat.le_refl 0)).1.length -
        (partitionLoop map 0 0 (Nat.le_refl 0)).2 := by
    rw [sortByPopularity_length, List.length_drop]
  have htake : ∀ x ∈ (partitionLoop map 0 0 (Nat.le_refl 0)).1.take
      (partitionLoop map 0 0 (Nat.le_refl 0)).2, x.acolor.a < 255 / 256 := by
    intro x hx
    obtain ⟨j, hj, hjx⟩ := List.mem_iff_getElem.mp hx
    rw [List.length_take] at hj
    rw [← hjx, List.getElem_take]
    exact inv.2.1 j (by omega) (by omega)
  have hdrop : ∀ x ∈ (partitionLoop map 0 0 (Nat.le_refl 0)).1.drop
      (partitionLoop map 0 0 (Nat.le_refl 0)).2, ¬(x.acolor.a < 255 / 256) := by
    intro x hx
    obtain ⟨j, hj, hjx⟩ := List.mem_iff_getElem.mp hx
    rw [List.length_drop] at hj
    rw [← hjx, List.getElem_drop]
    exact inv.2.2 _ (by omega) (by omega)
  have htl := take_length_append
    (sortByPopularity ((partitionLoop map 0 0 (Nat.le_refl 0)).1.take
      (partitionLoop map 0 0 (Nat.le_refl 0)).2))
    (sortByPopularity ((partitionLoop map 0 0 (Nat.le_refl 0)).1.drop
      (partitionLoop map 0 0 (Nat.le_refl 0)).2)) _ hA
  have hdl := drop_length_append
    (sortByPopularity ((partitionLoop map 0 0 (Nat.le_refl 0)).1.take
      (partitionLoop map 0 0 (Nat.le_refl 0)).2))
    (sortByPopularity ((partitionLoop map 0 0 (Nat.le_refl 0)).1.drop
      (partitionLoop map 0 0 (Nat.le_refl 0)).2)) _ hA
  rw [hsp, hT, sortPaletteNoFlag_parts]
  refine ⟨?_, by omega, ?_, ?_, ?_⟩
  · rw [List.length_append, hA, hB]
    omega
  · intro k hk
    constructor
    · intro hklt
      have hkA : k < (sortByPopularity ((partitionLoop map 0 0 (Nat.le_refl 0)).1.take
          (partitionLoop map 0 0 (Nat.le_refl 0)).2)).length := by omega
      have hgoal : (sortByPopularity ((partitionLoop map 0 0 (Nat.le_refl 0)).1.take
          (partitionLoop map 0 0 (Nat.le_refl 0)).2) ++
        sortByPopularity ((partitionLoop map 0 0 (Nat.le_refl 0)).1.drop
          (partitionLoop map 0 0 (Nat.le_refl 0)).2)).get ⟨k, hk⟩ =
          (sortByPopularity ((partitionLoop map 0 0 (Nat.le_refl 0)).1.take
            (partitionLoop map 0 0 (Nat.le_refl 0)).2)).get ⟨k, hkA⟩ := by
        simp only [List.get_eq_getElem]
        exact List.getElem_append_left hkA
      rw [hgoal]
      exact sortByPopularity_forall htake _ (List.get_mem _ _ _)
    · intro hkge
      have hkA : (sortByPopularity ((partitionLoop map 0 0 (Nat.le_refl 0)).1.take
          (partitionLoop map 0 0 (Nat.le_refl 0)).2)).length ≤ k := by omega
      have hlapp := List.length_append
        (sortByPopularity ((partitionLoop map 0 0 (Nat.le_refl 0)).1.take
          (partitionLoop map 0 0 (Nat.le_refl 0)).2))
        (sortByPopularity ((partitionLoop map 0 0 (Nat.le_refl 0)).1.drop
          (partitionLoop map 0 0 (Nat.le_refl 0)).2))
      have hkB : k - (sortByPopularity ((partitionLoop map 0 0 (Nat.le_refl 0)).1.take
          (partitionLoop map 0 0 (Nat.le_refl 0)).2)).length <
          (sortByPopularity ((partitionLoop map 0 0 (Nat.le_refl 0)).1.drop
            (partitionLoop map 0 0 (Nat.le_refl 0)).2)).length := by omega
      have hgoal : (sortByPopularity ((partitionLoop map 0 0 (Nat.le_refl 0)).1.take
          (partitionLoop map 0 0 (Nat.le_refl 0)).2) ++
        sortByPopularity ((partitionLoop map 0 0 (Nat.le_refl 0)).1.drop
          (partitionLoop map 0 0 (Nat.le_refl 0)).2)).get ⟨k, hk⟩ =
          (sortByPopularity ((partitionLoop map 0 0 (Nat.le_refl 0)).1.drop
            (partitionLoop map 0 0 (Nat.le_refl 0)).2)).get ⟨_, hkB⟩ := by
        simp only [List.get_eq_getElem]
        exact List.getElem_append_right hkA
      rw [hgoal]
      exact not_lt.mp (sortByPopularity_forall hdrop _ (List.get_mem _ _ _))
  · rw [htl]
    exact sortByPopularity_sorted _
  · rw [hdl]
    exact sortByPopularity_sorted _

theorem sort_palette_noflag_layout_witness :
    fxAttrNoFlag.last_index_transparent = false ∧
    (sort_palette fxAttrNoFlag fxMapAsc).length = fxMapAsc.length :=
  ⟨rfl, (sort_palette_noflag_layout fxAttrNoFlag fxMapAsc rfl).1⟩

theorem partitionLoop_fxMapAsc :
    partitionLoop fxMapAsc 0 0 (Nat.le_refl 0) = (fxMapAsc, 0) := by
  have h2 : (0 : ℕ) < fxMapAsc.length := by norm_num [fxMapAsc]
  have h3 : ¬((fxMapAsc.get ⟨0, h2⟩).acolor.a < 255 / 256) := by
    norm_num [fxMapAsc, fxOpaque]
  have h4 : (1 : ℕ) < fxMapAsc.length := by norm_num [fxMapAsc]
  have h5 : ¬((fxMapAsc.get ⟨1, h4⟩).acolor.a < 255 / 256) := by
    norm_num [fxMapAsc, fxOpaque]
  have h6 : ¬((2 : ℕ) < fxMapAsc.length) := by norm_num [fxMapAsc]
  rw [partitionLoop, dif_pos h2, if_neg h3, partitionLoop, dif_pos h4, if_neg h5,
    partitionLoop, dif_neg h6]

theorem sort_palette_fxMapAsc_eval : sort_palette fxAttrNoFlag fxMapAsc = fxMapAsc := by
  have hflag : fxAttrNoFlag.last_index_transparent = false := rfl
  rw [sort_palette, hflag]
  simp only [Bool.false_eq_true, if_false]
  rw [sortPaletteNoFlag_parts, partitionLoop_fxMapAsc]
  have hle : popularityLE (fxOpaque 1) (fxOpaque 2) := by
    norm_num [popularityLE, fxOpaque]
  simp [sortByPopularity, List.insertionSort, List.orderedInsert, fxMapAsc, hle]

/-- C3 counterexample: the claim's "descending popularity" ordering fails —
on a colormap of two opaque entries with popularities 1 and 2 (so
`num_trans = 0` and the opaque group is the whole palette), the sorted
palette is not descending by popularity. -/
theorem sort_palette_not_descending :
    ¬ List.Sorted (fun x y : CmapItem => y.popularity ≤ x.popularity)
      ((sort_palette fxAttrNoFlag fxMapAsc).drop (sortPaletteNumTrans fxMapAsc)) := by
  have hT : sortPaletteNumTrans fxMapAsc = 0 := by
    rw [sortPaletteNumTrans, partitionLoop_fxMapAsc]
  rw [sort_palette_fxMapAsc_eval, hT]
  intro hs
  rw [List.drop_zero] at hs
  have h12 := List.rel_of_sorted_cons hs (fxOpaque 2) (by norm_num [fxMapAsc])
  norm_num [fxOpaque] at h12

theorem sort_palette_flag_eq (options : LiqAttr) (map : List CmapItem)
    (hflag : options.last_index_transparent = true) (i : ℕ)
    (hfi : map.findIdx? (fun c => decide (c.acolor.a < 1 / 256)) = some i) :
    sort_palette options map =
      sortByPopularity ((swapList map i (map.length - 1)).take (map.length - 1)) ++
        (swapList map i (map.length - 1)).drop (map.length - 1) := by
  rw [sort_palette, hflag, if_pos rfl, hfi]

/-- C4 (amended): with `last_index_transparent` set and at least one entry
with alpha below 1/256, `sort_palette` places such an entry in the final
slot and sorts the remaining prefix by ascending popularity. -/
theorem sort_palette_last_transparent (options : LiqAttr) (map : List CmapItem)
    (hflag : options.last_index_transparent = true)
    (htrans : ∃ c ∈ map, c.acolor.a < 1 / 256) :
    (sort_palette options map).length = map.length ∧
    (∃ c, (sort_palette options map).getLast? = some c ∧ c.acolor.a < 1 / 256) ∧
    List.Sorted popularityLE ((sort_palette options map).dropLast) := by
  have hexists : (map.findIdx? (fun c => decide (c.acolor.a < 1 / 256))).isSome := by
    rw [List.findIdx?_isSome, List.any_eq_true]
    obtain ⟨c, hc, hca⟩ := htrans
    exact ⟨c, hc, by simpa using hca⟩
  obtain ⟨i, hfi⟩ := Option.isSome_iff_exists.mp hexists
  obtain ⟨hlt, hidx⟩ := List.findIdx?_eq_some_iff_findIdx_eq.mp hfi
  have hpi : (map.get ⟨i, hlt⟩).acolor.a < 1 / 256 := by
    have hw : map.findIdx (fun c => decide (c.acolor.a < 1 / 256)) < map.length := by
      rw [hidx]
      exact hlt
    have hg := @List.findIdx_getElem _ (fun c => decide (c.acolor.a < 1 / 256)) map hw
    simp only [hidx] at hg
    simpa using hg
  have hml : (swapList map i (map.length - 1)).length = map.length :=
    swapList_length map _ _
  have hlen1 : map.length - 1 < map.length := by omega
  have hlast : (swapList map i (map.length - 1)).get ⟨map.length - 1, by omega⟩ =
      map.get ⟨i, hlt⟩ := by
    rw [swapList_get map _ _ _ hlt hlen1 hlen1 (by omega)]
    rw [if_pos rfl]
  have hdropm : (swapList map i (map.length - 1)).drop (map.length - 1) =
      [map.get ⟨i, hlt⟩] := by
    rw [List.drop_eq_getElem_cons (by omega)]
    have hnil : (swapList map i (map.length - 1)).drop (map.length - 1 + 1) = [] := by
      apply List.drop_eq_nil_of_le
      omega
    rw [hnil]
    have hg := hlast
    simp only [List.get_eq_getElem] at hg
    rw [hg]
    simp [List.get_eq_getElem]
  have hAlen : (sortByPopularity ((swapList map i (map.length - 1)).take
      (map.length - 1))).length = map.length - 1 := by
    rw [sortByPopularity_length, List.length_take]
    omega
  rw [sort_palette_flag_eq options map hflag i hfi]
  refine ⟨?_, ?_, ?_⟩
  · rw [List.length_append, hAlen, hdropm]
    simp only [List.length_singleton]
    omega
  · rw [hdropm]
    exact ⟨map.get ⟨i, hlt⟩, List.getLast?_concat _, hpi⟩
  · rw [hdropm, List.dropLast_concat]
    exact sortByPopularity_sorted _

theorem sort_palette_last_transparent_witness :
    fxAttrFlag.last_index_transparent = true ∧
    (∃ c, (sort_palette fxAttrFlag fxMapLast).getLast? = some c ∧ c.acolor.a < 1 / 256) :=
  ⟨rfl, (sort_palette_last_transparent fxAttrFlag fxMapLast rfl
    ⟨fxTransparent 5, by norm_num [fxMapLast], by norm_num [fxTransparent]⟩).2.1⟩

theorem fxMapLast_findIdx :
    fxMapLast.findIdx? (fun c => decide (c.acolor.a < 1 / 256)) = some 0 := by
  simp only [fxMapLast, List.findIdx?_cons]
  rw [if_pos (by norm_num [fxTransparent])]

theorem sort_palette_fxMapLast_eval :
    sort_palette fxAttrFlag fxMapLast = [fxOpaque 1, fxOpaque 2, fxTransparent 5] := by
  rw [sort_palette_flag_eq fxAttrFlag fxMapLast rfl 0 fxMapLast_findIdx]
  have hswap : swapList fxMapLast 0 (fxMapLast.length - 1) =
      [fxOpaque 2, fxOpaque 1, fxTransparent 5] := rfl
  rw [hswap]
  have hn : ¬ popularityLE (fxOpaque 2) (fxOpaque 1) := by norm_num [popularityLE, fxOpaque]
  have hsort : sortByPopularity ([fxOpaque 2, fxOpaque 1, fxTransparent 5].take
      (fxMapLast.length - 1)) = [fxOpaque 1, fxOpaque 2] := by
    have htk : [fxOpaque 2, fxOpaque 1, fxTransparent 5].take (fxMapLast.length - 1) =
        [fxOpaque 2, fxOpaque 1] := rfl
    rw [htk]
    have hle : popularityLE (fxOpaque 1) (fxOpaque 2) := by norm_num [popularityLE, fxOpaque]
    simp [sortByPopularity, List.insertionSort, List.orderedInsert, hn]
  rw [hsort]
  rfl

/-- C4 counterexample: the claim's "descending popularity" ordering of the
prefix fails — with the flag set, a transparent entry and two opaque
entries of popularities 1 and 2, the remaining prefix comes out ascending,
not descending. -/
theorem sort_palette_flag_not_descending :
    ¬ List.Sorted (fun x y : CmapItem => y.popularity ≤ x.popularity)
      ((sort_palette fxAttrFlag fxMapLast).dropLast) := by
  rw [sort_palette_fxMapLast_eval]
  intro hs
  have hdl : ([fxOpaque 1, fxOpaque 2, fxTransparent 5].dropLast) =
      [fxOpaque 1, fxOpaque 2] := rfl
  rw [hdl] at hs
  have h12 := List.rel_of_sorted_cons hs (fxOpaque 2) (by norm_num)
  norm_num [fxOpaque] at h12

theorem sortPaletteNoFlag_perm (map : List CmapItem) :
    List.Perm (sortPaletteNoFlag map) map := by
  rw [sortPaletteNoFlag_parts]
  refine (List.Perm.append (sortByPopularity_perm _) (sortByPopularity_perm _)).trans ?_
  rw [List.take_append_drop]
  exact partitionLoop_perm map 0 0 (Nat.le_refl 0)

theorem sort_palette_perm (options : LiqAttr) (map : List CmapItem) :
    List.Perm (sort_palette options map) map := by
  rw [sort_palette]
  by_cases hflag : options.last_index_transparent = true
  · rw [if_pos hflag]
    cases hfi : map.findIdx? (fun c => decide (c.acolor.a < 1 / 256)) with
    | none => exact sortPaletteNoFlag_perm map
    | some i =>
      refine (List.Perm.append (sortByPopularity_perm _) (List.Perm.refl _)).trans ?_
      rw [List.take_append_drop]
      exact swapList_perm map i (map.length - 1)
  · rw [if_neg hflag]
    exact sortPaletteNoFlag_perm map

/-- C2: when the histogram has at most `max_colors` entries and
`target_mse` is zero, quantization succeeds with palette error exactly 0
and its palette carries exactly the histogram's colors with their
perceptual weights as popularities (as a permutation — `sort_palette`
reorders the copied entries). -/
theorem pngquant_quantize_few_colors (O : QuantOracles) (hist : Histogram)
    (options : LiqAttr) (h1 : hist.length ≤ options.max_colors)
    (h2 : options.target_mse = 0) :
    ∃ r, pngquant_quantize O hist options = some r ∧ r.palette_error = 0 ∧
      List.Perm (r.palette.map fun c => (c.acolor, c.popularity))
        (hist.map fun e => (e.acolor, e.perceptual_weight)) := by
  have hs : quantizeShortcut options hist := ⟨h1, h2⟩
  refine ⟨mkLiqResult options (sort_palette options (histToColormap hist)) 0, ?_, rfl, ?_⟩
  · rw [pngquant_quantize, if_pos hs]
  · have hp := (sort_palette_perm options (histToColormap hist)).map
      (fun c : CmapItem => (c.acolor, c.popularity))
    refine hp.trans ?_
    rw [histToColormap, List.map_map]
    exact List.Perm.refl _

theorem pngquant_quantize_few_colors_witness :
    fxHist.length ≤ fxAttrNoFlag.max_colors ∧ fxAttrNoFlag.target_mse = 0 ∧
    ∃ r, pngquant_quantize fxOracles fxHist fxAttrNoFlag = some r ∧ r.palette_error = 0 ∧
      List.Perm (r.palette.map fun c => (c.acolor, c.popularity))
        (fxHist.map fun e => (e.acolor, e.perceptual_weight)) :=
  ⟨by norm_num [fxHist, fxAttrNoFlag], rfl,
    pngquant_quantize_few_colors fxOracles fxHist fxAttrNoFlag
      (by norm_num [fxHist, fxAttrNoFlag]) rfl⟩

/-- C1: quantization returns no result exactly when the palette error at
the quality-floor check exceeds `max_mse` (for any attribute with a
non-negative `max_mse`, which every reachable attribute has); a returned
result carries the sorted constructed palette and that error. -/
theorem pngquant_quantize_quality_floor (O : QuantOracles) (hist : Histogram)
    (options : LiqAttr) (h : 0 ≤ options.max_mse) :
    (pngquant_quantize O hist options = none ↔
      options.max_mse < quantizePaletteError O options hist) ∧
    (∀ r, pngquant_quantize O hist options = some r →
      r.palette = sort_palette options (quantizeColormap O options hist) ∧
      r.palette_error = quantizePaletteError O options hist) := by
  by_cases hs : quantizeShortcut options hist
  · rw [pngquant_quantize, if_pos hs, quantizePaletteError, quantizeColormap,
      quantizeCore, if_pos hs]
    refine ⟨⟨fun hnone => absurd hnone (by simp), fun hlt => absurd hlt (not_lt.mpr h)⟩, ?_⟩
    intro r hr
    have hr2 : mkLiqResult options (sort_palette options (histToColormap hist)) 0 = r :=
      Option.some.inj hr
    rw [← hr2]
    exact ⟨rfl, rfl⟩
  · rw [pngquant_quantize, if_neg hs, quantizePaletteError, quantizeColormap,
      quantizeCore, if_neg hs]
    by_cases hcomp : options.max_mse < (quantizeSearch O options hist).2
    · rw [if_pos hcomp]
      refine ⟨⟨fun _ => hcomp, fun _ => rfl⟩, ?_⟩
      intro r hr
      exact absurd hr (by simp)
    · rw [if_neg hcomp]
      refine ⟨⟨fun hnone => absurd hnone (by simp), fun hlt => absurd hlt hcomp⟩, ?_⟩
      intro r hr
      have hr2 : mkLiqResult options (sort_palette options (quantizeSearch O options hist).1)
          (quantizeSearch O options hist).2 = r := Option.some.inj hr
      rw [← hr2]
      exact ⟨rfl, rfl⟩

theorem pngquant_quantize_quality_floor_witness :
    (0 : ℚ) ≤ fxAttrNoFlag.max_mse ∧
    (pngquant_quantize fxOracles fxHist fxAttrNoFlag = none ↔
      fxAttrNoFlag.max_mse < quantizePaletteError fxOracles fxAttrNoFlag fxHist) :=
  ⟨by norm_num [fxAttrNoFlag],
    (pngquant_quantize_quality_floor fxOracles fxHist fxAttrNoFlag
      (by norm_num [fxAttrNoFlag])).1⟩

/-- C6 (code bug): `liq_set_dithering_level` validates the stored
`res->dither_level` instead of the `dither_level` argument: on a result
whose stored level is 1/2, the out-of-range argument 2 is accepted, stored,
and LIQ_OK is returned. -/
theorem liq_set_dithering_level_checks_wrong_value :
    (liq_set_dithering_level fxResult 2).1 = LiqError.LIQ_OK ∧
    (liq_set_dithering_level fxResult 2).2.dither_level = 2 := by
  have hc : ¬(fxResult.dither_level < 0 ∨ 1 < fxResult.dither_level) := by
    norm_num [fxResult]
  rw [liq_set_dithering_level, if_neg hc]
  exact ⟨rfl, rfl⟩

/-- C7 (amended): for quality values 1..100 (with `minimum ≤ target`),
`liq_set_quality` succeeds and derives both stored MSE values through
`quality_to_mse q = 2.5/(210+q)^1.2 · (100.1−q)/100`; quality 0 instead
stores the MAX_DIFF sentinel. -/
theorem liq_set_quality_formula (attr : AttrQuality) (target minimum : ℤ)
    (h1 : 1 ≤ minimum) (h2 : minimum ≤ target) (h3 : target ≤ 100) :
    (liq_set_quality attr target minimum).1 = LiqError.LIQ_OK ∧
    (liq_set_quality attr target minimum).2.target_mse =
      2.5 / ((210 : ℝ) + (target : ℝ)) ^ (1.2 : ℝ) * ((100.1 : ℝ) - (target : ℝ)) / 100 ∧
    (liq_set_quality attr target minimum).2.max_mse =
      2.5 / ((210 : ℝ) + (minimum : ℝ)) ^ (1.2 : ℝ) * ((100.1 : ℝ) - (minimum : ℝ)) / 100 := by
  have hc : ¬(target < 0 ∨ 100 < target ∨ target < minimum ∨ minimum < 0) := by omega
  rw [liq_set_quality, if_neg hc]
  refine ⟨rfl, ?_, ?_⟩
  · show quality_to_mse target = _
    rw [quality_to_mse, if_neg (by omega : ¬target = 0)]
  · show quality_to_mse minimum = _
    rw [quality_to_mse, if_neg (by omega : ¬minimum = 0)]

theorem liq_set_quality_formula_witness :
    ((1 : ℤ) ≤ 50 ∧ (50 : ℤ) ≤ 50 ∧ (50 : ℤ) ≤ 100) ∧
    (liq_set_quality fxAttrQuality 50 50).1 = LiqError.LIQ_OK :=
  ⟨⟨by norm_num, by norm_num, by norm_num⟩,
    (liq_set_quality_formula fxAttrQuality 50 50 (by norm_num) (by norm_num)
      (by norm_num)).1⟩

/-- C7 counterexample: quality 0 lies inside the claim's 0..100 range, is
accepted by `liq_set_quality`, but the stored target MSE is the MAX_DIFF
sentinel (10^20), not the claimed formula value. -/
theorem liq_set_quality_zero_not_formula :
    (liq_set_quality fxAttrQuality 0 0).1 = LiqError.LIQ_OK ∧
    (liq_set_quality fxAttrQuality 0 0).2.target_mse ≠
      2.5 / ((210 : ℝ) + ((0 : ℤ) : ℝ)) ^ (1.2 : ℝ) * ((100.1 : ℝ) - ((0 : ℤ) : ℝ)) / 100 := by
  have hc : ¬((0 : ℤ) < 0 ∨ (100 : ℤ) < (0 : ℤ) ∨ (0 : ℤ) < 0 ∨ (0 : ℤ) < 0) := by omega
  rw [liq_set_quality, if_neg hc]
  refine ⟨rfl, ?_⟩
  show quality_to_mse 0 ≠ _
  rw [quality_to_mse, if_pos rfl]
  have hb : (1 : ℝ) ≤ ((210 : ℝ) + ((0 : ℤ) : ℝ)) ^ (1.2 : ℝ) := by
    apply Real.one_le_rpow <;> norm_num
  have hA : 2.5 / ((210 : ℝ) + ((0 : ℤ) : ℝ)) ^ (1.2 : ℝ) ≤ 2.5 :=
    div_le_self (by norm_num) hb
  have hA0 : 0 ≤ 2.5 / ((210 : ℝ) + ((0 : ℤ) : ℝ)) ^ (1.2 : ℝ) := by positivity
  have hMD : ((MAX_DIFF : ℚ) : ℝ) = 10 ^ 20 := by norm_num [MAX_DIFF]
  rw [hMD]
  intro heq
  rw [show ((100.1 : ℝ) - ((0 : ℤ) : ℝ)) = 100.1 by norm_num] at heq
  nlinarith [hA, hA0, heq]

theorem modify_alpha_pixel_frame (m : ℚ) (px : RgbPixel) :
    (modify_alpha_pixel m px).r = px.r ∧ (modify_alpha_pixel m px).g = px.g ∧
    (modify_alpha_pixel m px).b = px.b ∧
    (px.a < (⌊m * (169 / 256) * 255⌋).toNat → modify_alpha_pixel m px = px) := by
  simp only [modify_alpha_pixel]
  by_cases hth : (⌊m * (169 / 256) * 255⌋).toNat ≤ px.a
  · rw [if_pos hth]
    exact ⟨rfl, rfl, rfl, fun hlt => absurd hth (by omega)⟩
  · rw [if_neg hth]
    exact ⟨rfl, rfl, rfl, fun _ => rfl⟩

/-- C9 (amended): `modify_alpha` changes at most the alpha byte of each
pixel — red, green and blue are always preserved — and every pixel whose
alpha byte is below the truncated threshold
`(unsigned)(min_opaque_val·169/256·255)` is left entirely unchanged. -/
theorem modify_alpha_frame (input_image : LiqImage) (min_opaque_val : ℚ) (row col : ℕ) :
    ((modify_alpha input_image min_opaque_val).rows row col).r =
      (input_image.rows row col).r ∧
    ((modify_alpha input_image min_opaque_val).rows row col).g =
      (input_image.rows row col).g ∧
    ((modify_alpha input_image min_opaque_val).rows row col).b =
      (input_image.rows row col).b ∧
    ((input_image.rows row col).a < (⌊min_opaque_val * (169 / 256) * 255⌋).toNat →
      (modify_alpha input_image min_opaque_val).rows row col =
        input_image.rows row col) := by
  have hred : (modify_alpha input_image min_opaque_val).rows row col =
      if row < input_image.height ∧ col < input_image.width
      then modify_alpha_pixel min_opaque_val (input_image.rows row col)
      else input_image.rows row col := rfl
  rw [hred]
  by_cases hb : row < input_image.height ∧ col < input_image.width
  · rw [if_pos hb]
    exact modify_alpha_pixel_frame min_opaque_val (input_image.rows row col)
  · rw [if_neg hb]
    exact ⟨rfl, rfl, rfl, fun _ => rfl⟩

theorem modify_alpha_frame_witness :
    (fxImage9w.rows 0 0).a < (⌊(1 / 10 : ℚ) * (169 / 256) * 255⌋).toNat ∧
    (modify_alpha fxImage9w (1 / 10)).rows 0 0 = fxImage9w.rows 0 0 := by
  have hlt : (fxImage9w.rows 0 0).a < (⌊(1 / 10 : ℚ) * (169 / 256) * 255⌋).toNat := by
    have hfl : (⌊(1 / 10 : ℚ) * (169 / 256) * 255⌋) = 16 := by norm_num
    rw [hfl]
    norm_num [fxImage9w, fxImage]
  exact ⟨hlt, (modify_alpha_frame fxImage9w (1 / 10) 0 0).2.2.2 hlt⟩

/-- C9 counterexample: the claim's real-valued threshold
`min_opaque_val·169/256·255` is wrong — with `min_opaque_val = 3/10` the
threshold is 50.50…, and a pixel with alpha byte 50 (below that threshold,
so the claim says it is untouched) has its alpha byte rewritten to 47. -/
theorem modify_alpha_below_real_threshold_changed :
    ((fxImage9.rows 0 0).a : ℚ) < (3 / 10 : ℚ) * (169 / 256) * 255 ∧
    (modify_alpha fxImage9 (3 / 10)).rows 0 0 ≠ fxImage9.rows 0 0 := by
  constructor
  · norm_num [fxImage9, fxImage]
  · have hred : (modify_alpha fxImage9 (3 / 10)).rows 0 0 =
        modify_alpha_pixel (3 / 10) (fxImage9.rows 0 0) := by
      have h : (modify_alpha fxImage9 (3 / 10)).rows 0 0 =
          if 0 < fxImage9.height ∧ 0 < fxImage9.width
          then modify_alpha_pixel (3 / 10) (fxImage9.rows 0 0)
          else fxImage9.rows 0 0 := rfl
      rw [h, if_pos (by norm_num [fxImage9, fxImage])]
    rw [hred]
    have hpx : fxImage9.rows 0 0 = ⟨10, 20, 30, 50⟩ := rfl
    rw [hpx]
    simp only [modify_alpha_pixel]
    rw [if_pos (by norm_num : (⌊(3 / 10 : ℚ) * (169 / 256) * 255⌋).toNat ≤
      (⟨10, 20, 30, 50⟩ : RgbPixel).a)]
    intro hcontra
    have ha := congrArg RgbPixel.a hcontra
    simp only [to_rgb_alpha, to_f_alpha] at ha
    rw [show ((⟨10, 20, 30, 50⟩ : RgbPixel).a : ℚ) = 50 from rfl] at ha
    norm_num [round_eq] at ha
    omega

theorem scaleRun_le : ∀ (edges : ℕ → ℚ) (base lastcol col : ℕ) (factor : ℚ),
    0 ≤ factor → factor ≤ 1 → (∀ i, 0 ≤ edges i) →
    (∀ i, scaleRun edges base lastcol col factor i ≤ edges i) ∧
    (∀ i, 0 ≤ scaleRun edges base lastcol col factor i) := by
  intro edges base lastcol col factor
  induction edges, base, lastcol, col, factor using scaleRun.induct with
  | case1 edges base lastcol col factor hle ih =>
    intro hf0 hf1 hnn
    rw [scaleRun, if_pos hle]
    have hupd : ∀ i, 0 ≤ Function.update edges (base + lastcol)
        (edges (base + lastcol) * factor) i := by
      intro i
      rcases eq_or_ne i (base + lastcol) with rfl | hne
      · rw [Function.update_same]
        exact mul_nonneg (hnn _) hf0
      · rw [Function.update_noteq hne]
        exact hnn i
    obtain ⟨ih1, ih2⟩ := ih hf0 hf1 hupd
    refine ⟨?_, ih2⟩
    intro i
    refine le_trans (ih1 i) ?_
    rcases eq_or_ne i (base + lastcol) with rfl | hne
    · rw [Function.update_same]
      exact mul_le_of_le_one_right (hnn _) hf1
    · rw [Function.update_noteq hne]
  | case2 edges base lastcol col factor hle =>
    intro _ _ hnn
    rw [scaleRun, if_neg hle]
    exact ⟨fun i => le_refl _, hnn⟩

theorem ditherRowLoop_le : ∀ (rp : ℕ → ℕ → ℕ) (width height row col : ℕ)
    (edges : ℕ → ℚ) (lastpixel lastcol : ℕ),
    (∀ i, 0 ≤ edges i) →
    (∀ i, ditherRowLoop rp width height row col edges lastpixel lastcol i ≤ edges i) ∧
    (∀ i, 0 ≤ ditherRowLoop rp width height row col edges lastpixel lastcol i) := by
  intro rp width height row col edges lastpixel lastcol
  induction col, edges, lastpixel, lastcol using ditherRowLoop.induct rp width height row
    with
  | case1 col edges lastpixel lastcol hcol px htrig neighbor_count edges1 ih =>
    intro hnn
    rw [ditherRowLoop, if_pos hcol]
    have htrig2 : rp row col ≠ lastpixel ∨ col = width - 1 := htrig
    rw [if_pos htrig2]
    have hnc : (0 : ℚ) < 2.5 + ((col - lastcol : ℕ) : ℚ) +
        (verticalNeighbors rp height row lastpixel lastcol col : ℚ) := by
      have h1 : (0 : ℚ) ≤ ((col - lastcol : ℕ) : ℚ) := Nat.cast_nonneg _
      have h2 : (0 : ℚ) ≤ (verticalNeighbors rp height row lastpixel lastcol col : ℚ) :=
        Nat.cast_nonneg _
      linarith
    have hdiv : (2.5 : ℚ) / (2.5 + ((col - lastcol : ℕ) : ℚ) +
        (verticalNeighbors rp height row lastpixel lastcol col : ℚ)) ≤ 1 := by
      rw [div_le_one hnc]
      have h1 : (0 : ℚ) ≤ ((col - lastcol : ℕ) : ℚ) := Nat.cast_nonneg _
      have h2 : (0 : ℚ) ≤ (verticalNeighbors rp height row lastpixel lastcol col : ℚ) :=
        Nat.cast_nonneg _
      linarith
    have hdiv0 : (0 : ℚ) ≤ (2.5 : ℚ) / (2.5 + ((col - lastcol : ℕ) : ℚ) +
        (verticalNeighbors rp height row lastpixel lastcol col : ℚ)) := by positivity
    obtain ⟨hs1, hs2⟩ := scaleRun_le edges (row * width) lastcol col
      (1 - 2.5 / (2.5 + ((col - lastcol : ℕ) : ℚ) +
        (verticalNeighbors rp height row lastpixel lastcol col : ℚ)))
      (by linarith) (by linarith) hnn
    obtain ⟨ih1, ih2⟩ := ih hs2
    exact ⟨fun i => le_trans (ih1 i) (hs1 i), ih2⟩
  | case2 col edges lastpixel lastcol hcol px htrig ih =>
    intro hnn
    rw [ditherRowLoop, if_pos hcol]
    have htrig2 : ¬(rp row col ≠ lastpixel ∨ col = width - 1) := htrig
    rw [if_neg htrig2]
    exact ih hnn
  | case3 col edges lastpixel lastcol hcol =>
    intro hnn
    rw [ditherRowLoop, if_neg hcol]
    exact ⟨fun i => le_refl _, hnn⟩

theorem updateDitherMapRows_le (rp : ℕ → ℕ → ℕ) (width height : ℕ) :
    ∀ (rows : List ℕ) (edges : ℕ → ℚ), (∀ i, 0 ≤ edges i) →
    (∀ i, rows.foldl
      (fun e row => ditherRowLoop rp width height row 1 e (rp row 0) 0) edges i ≤ edges i) ∧
    (∀ i, 0 ≤ rows.foldl
      (fun e row => ditherRowLoop rp width height row 1 e (rp row 0) 0) edges i) := by
  intro rows
  induction rows with
  | nil =>
    intro edges hnn
    exact ⟨fun i => le_refl _, hnn⟩
  | cons r rs ih =>
    intro edges hnn
    rw [List.foldl_cons]
    obtain ⟨h1, h2⟩ := ditherRowLoop_le rp width height r 1 edges (rp r 0) 0 hnn
    obtain ⟨ih1, ih2⟩ := ih (ditherRowLoop rp width height r 1 edges (rp r 0) 0) h2
    exact ⟨fun i => le_trans (ih1 i) (h1 i), ih2⟩

/-- C10: for an image with a non-negative edges map, `update_dither_map`
never increases any cell — the produced dither map is pointwise at most the
prior edges map — and the map is transferred: afterwards the image has a
dither map and no edges map. -/
theorem update_dither_map_monotone (row_pointers : ℕ → ℕ → ℕ) (input_image : LiqImage)
    (e : ℕ → ℚ) (he : input_image.edges = some e) (hnn : ∀ i, 0 ≤ e i) :
    (∃ d, (update_dither_map row_pointers input_image).dither_map = some d ∧
      ∀ i, d i ≤ e i) ∧
    (update_dither_map row_pointers input_image).edges = none := by
  refine ⟨⟨updateDitherMapRows row_pointers input_image.width input_image.height
    (input_image.edges.getD (fun _ => 0)), rfl, ?_⟩, rfl⟩
  intro i
  have hgd : input_image.edges.getD (fun _ => 0) = e := by
    rw [he]
    rfl
  rw [hgd]
  exact (updateDitherMapRows_le row_pointers input_image.width input_image.height
    (List.range input_image.height) e hnn).1 i

theorem update_dither_map_monotone_witness :
    fxImage10.edges = some (fun _ => (1 : ℚ)) ∧
    (update_dither_map fxRowsZero fxImage10).edges = none :=
  ⟨rfl, (update_dither_map_monotone fxRowsZero fxImage10 (fun _ => 1) rfl
    (fun _ => by norm_num)).2⟩

theorem addErr_comm (e : ℕ → FPixel) (i j : ℕ) (h : i ≠ j) (v w : FPixel) :
    addErr (addErr e i v) j w = addErr (addErr e j w) i v := by
  unfold addErr
  rw [Function.update_noteq (Ne.symm h), Function.update_noteq h, Function.update_comm h]

/-- C5: the dithered remapper distributes each pixel's scaled residual with
the Floyd–Steinberg weights 7/16 to the pixel ahead in the travel direction
on the current row and 3/16, 5/16, 1/16 to the next row behind, at, and
ahead of the pixel (the weights mirror when travelling right-to-left), and
the rows run serpentine: the direction state after k rows is left-to-right
exactly for even k, starting left-to-right. -/
theorem floyd_weights_serpentine :
    (∀ (fs_direction : Bool) (p : ℕ) (err : FPixel) (thiserr nexterr : ℕ → FPixel),
      fsPropagate fs_direction p err thiserr nexterr =
        fsSpecPropagate fs_direction p err thiserr nexterr) ∧
    (∀ (F : FloydRun) (out0 : ℕ → ℕ → ℕ) (k : ℕ),
      (floydStateAt F out0 k).fs_direction = decide (k % 2 = 0)) := by
  constructor
  · intro dir p err te ne
    cases dir with
    | true => rfl
    | false =>
      rw [fsPropagate, fsSpecPropagate]
      simp only [Bool.false_eq_true, if_false]
      refine congrArg (Prod.mk _) ?_
      rw [addErr_comm ne p (p + 1) (by omega) (err.scale (1 / 16)) (err.scale (5 / 16)),
        addErr_comm (addErr ne (p + 1) (err.scale (5 / 16))) p (p + 2) (by omega)
          (err.scale (1 / 16)) (err.scale (3 / 16)),
        addErr_comm ne (p + 1) (p + 2) (by omega) (err.scale (5 / 16))
          (err.scale (3 / 16))]
  · intro F out0 k
    induction k with
    | zero => rfl
    | succ n ih =>
      have hstep : floydStateAt F out0 (n + 1) =
          floydRowStep F n (floydStateAt F out0 n) := by
        rw [floydStateAt, floydStateAt, List.range_succ, List.foldl_append,
          List.foldl_cons, List.foldl_nil]
      rw [hstep]
      have hdir : (floydRowStep F n (floydStateAt F out0 n)).fs_direction =
          !(floydStateAt F out0 n).fs_direction := rfl
      rw [hdir, ih]
      by_cases hpar : n % 2 = 0
      · have h1 : (n + 1) % 2 = 1 := by omega
        simp [hpar, h1]
      · have h1 : (n + 1) % 2 = 0 := by omega
        simp [hpar, h1]

/-- C8 (amended): with a nonzero dithering level, the dithered remapper is
invoked with `max_dither_error = max(base_error·2.4, 16/256)` where
`base_error` is the first plain pass's MSE when that pass ran (dither map
generation) and the stored palette construction error otherwise. -/
theorem write_rows_floyd_max_dither_error (E : RemapExt) (result : LiqRemappingResult)
    (input_image : LiqImage) (row_pointers : ℕ → ℕ → ℕ)
    (h : result.dither_level ≠ 0) :
    (liq_write_remapped_image_rows E result input_image row_pointers).floydCall =
      some ⟨decide (result.use_dither_map ∧ input_image.edges.isSome ∧
          input_image.dither_map.isNone),
        max ((if result.use_dither_map ∧ input_image.edges.isSome ∧
              input_image.dither_map.isNone then
            (remap_to_palette E input_image row_pointers result.palette
              result.min_opaque_val).2.2
          else result.palette_error) * 2.4) (16 / 256)⟩ := by
  rw [liq_write_remapped_image_rows, if_neg h]

theorem write_rows_floyd_max_dither_error_witness :
    fxRemapResult.dither_level ≠ 0 ∧
    (liq_write_remapped_image_rows fxExt fxRemapResult fxImage fxRowsZero).floydCall.isSome
      = true := by
  have h : fxRemapResult.dither_level ≠ 0 := by norm_num [fxRemapResult]
  refine ⟨h, ?_⟩
  rw [write_rows_floyd_max_dither_error fxExt fxRemapResult fxImage fxRowsZero h]
  rfl

/-- C8 counterexample: the constant floor the code passes is 16/256, not
the claimed 16/255 — with stored palette error 0 and no dither-map
generation the dithered remapper receives 1/16, while the claim's value
would be 16/255. -/
theorem write_rows_floyd_not_16_255 :
    ∃ c, (liq_write_remapped_image_rows fxExt fxRemapResult fxImage fxRowsZero).floydCall
        = some c ∧
      c.max_dither_error ≠ max (fxRemapResult.palette_error * 2.4) (16 / 255) := by
  have h : fxRemapResult.dither_level ≠ 0 := by norm_num [fxRemapResult]
  have heval : (liq_write_remapped_image_rows fxExt fxRemapResult fxImage
      fxRowsZero).floydCall =
      some ⟨decide (fxRemapResult.use_dither_map ∧ fxImage.edges.isSome ∧
          fxImage.dither_map.isNone),
        max ((if fxRemapResult.use_dither_map ∧ fxImage.edges.isSome ∧
              fxImage.dither_map.isNone then
            (remap_to_palette fxExt fxImage fxRowsZero fxRemapResult.palette
              fxRemapResult.min_opaque_val).2.2
          else fxRemapResult.palette_error) * 2.4) (16 / 256)⟩ := by
    rw [liq_write_remapped_image_rows, if_neg h]
  refine ⟨_, heval, ?_⟩
  have hgen : ¬(fxRemapResult.use_dither_map ∧ fxImage.edges.isSome ∧
      fxImage.dither_map.isNone) := by
    simp [fxRemapResult, fxImage]
  rw [if_neg hgen]
  have hpe : fxRemapResult.palette_error = 0 := rfl
  rw [hpe]
  rw [max_eq_right (by norm_num : (0 : ℚ) * 2.4 ≤ 16 / 256),
    max_eq_right (by norm_num : (0 : ℚ) * 2.4 ≤ 16 / 255)]
  norm_num
